import Mathlib

/-!
Verification of the yule log-extraction core: shallow embedding of the
path sanitizer, folder normalizer, record segmenter, date-range filter,
archive readers/analyzer and the incremental tailer, together with
theorems settling the specification claims.

Modelling conventions:
* JavaScript strings are Lean `String`s; the character-level operations
  (split, trim, case folding, substring search) are defined on `String.data`
  so that proofs can proceed by list induction.  Each definition carries a
  comment naming the JS operation it models.
* JavaScript `Date` values are modelled by a `Nat` timestamp
  `encTs y m d hh mm ss` that is strictly monotone in the lexicographic
  order of the calendar fields and is second-accurate within any month;
  all date operations of the source (comparison, equality, +1 second
  within a day) are order-faithful under this encoding.  `new Date(s)`
  is modelled by `jsParseDate`, covering the formats produced by the
  repository's log lines (`YYYY-MM-DD` and `YYYY-MM-DD[T ]HH:MM:SS`);
  strings outside these formats yield `none`, which the embedding treats
  exactly like an Invalid Date (comparisons against it never filter,
  assignment guarded by `isValidDate` is skipped).
* Regexes are modelled by explicit scanning functions reproducing the
  backtracking semantics of the concrete patterns of the source
  (anchored lazy group, `\s+`, case-insensitive alternation).
-/

namespace Yule

/-! ### Character and string helpers -/

/-- The whitespace class of JavaScript regular expressions (restricted to the
code points that can occur in the repository's inputs). -/
def isJsSpace (c : Char) : Bool :=
  c == ' ' || c == '\t' || c == '\n' || c == '\x0d' ||
  c == '\x0b' || c == '\x0c' || c == ' '

/-- Characters that the JS regex dot does not match (line terminators). -/
def isDotStop (c : Char) : Bool :=
  c == '\n' || c == '\x0d' || c == ' ' || c == ' '

/-- Models `s.split(sep)` for a one-character separator. -/
def splitCh (sep : Char) : List Char → List (List Char)
  | [] => [[]]
  | c :: rest =>
    match splitCh sep rest with
    | [] => [[]]
    | s :: ss => if c == sep then [] :: s :: ss else (c :: s) :: ss

/-- Models `s.split(sep)` at the `String` level. -/
def splitChStr (sep : Char) (s : String) : List String :=
  (splitCh sep s.data).map (fun l => ⟨l⟩)

/-- Models `s.trim()` (whitespace as in `isJsSpace`). -/
def jsTrim (s : String) : String :=
  ⟨((s.data.dropWhile isJsSpace).reverse.dropWhile isJsSpace).reverse⟩

/-- Models `s.toLowerCase()` (ASCII, which is all the source compares). -/
def lowerStr (s : String) : String :=
  ⟨s.data.map Char.toLower⟩

/-- Models `s.includes(pat)` (substring containment). -/
def containsSubStr (s pat : String) : Bool :=
  decide (pat.data <:+: s.data)

/-- Models `s.startsWith(pat)`. -/
def startsWithStr (s pat : String) : Bool :=
  pat.data.isPrefixOf s.data

/-- Models `s.endsWith(pat)`. -/
def endsWithStr (s pat : String) : Bool :=
  pat.data.isSuffixOf s.data

/-- Models `String(n)` for a non-negative number. -/
def natToStr (n : Nat) : String := toString n

/-! ### Date model -/

/-- Order-faithful timestamp encoding of a calendar date-time: strictly
monotone in `(y, m, d, hh, mm, ss)` lexicographically and second-accurate
within a month, hence order-isomorphic to the epoch value of the
corresponding JS `Date` for valid fields. -/
def encTs (y m d hh mm ss : Nat) : Nat :=
  ((((y * 13 + m) * 32 + d) * 24 + hh) * 60 + mm) * 60 + ss

/-- Leap-year test of the Gregorian calendar. -/
def isLeap (y : Nat) : Bool :=
  (y % 4 == 0 && y % 100 != 0) || y % 400 == 0

/-- Days in a month (1-12). -/
def daysInMonth (y m : Nat) : Nat :=
  if m == 2 then (if isLeap y then 29 else 28)
  else if m == 4 || m == 6 || m == 9 || m == 11 then 30
  else 31

/-- Field validation performed by the JS date parser. -/
def validYmdHms (y m d hh mm ss : Nat) : Bool :=
  1 ≤ m && m ≤ 12 && 1 ≤ d && d ≤ daysInMonth y m &&
  hh ≤ 23 && mm ≤ 59 && ss ≤ 59

/-- Numeric value of a decimal digit character. -/
def digitVal (c : Char) : Nat := c.toNat - 48

/-- Models `new Date(s)` on the formats occurring in this repository:
`YYYY-MM-DD` parses to midnight of that day and
`YYYY-MM-DD HH:MM:SS` / `YYYY-MM-DDTHH:MM:SS` to that time of day
(one uniform timezone, per the spec's convention that bare dates and
local times share a single convention).  Any other shape yields `none`,
the model of an Invalid Date. -/
def jsParseDateL : List Char → Option Nat
  | [y1, y2, y3, y4, h1, m1, m2, h2, d1, d2] =>
    if y1.isDigit && y2.isDigit && y3.isDigit && y4.isDigit &&
       h1 == '-' && m1.isDigit && m2.isDigit && h2 == '-' &&
       d1.isDigit && d2.isDigit then
      let y := ((digitVal y1 * 10 + digitVal y2) * 10 + digitVal y3) * 10 + digitVal y4
      let m := digitVal m1 * 10 + digitVal m2
      let d := digitVal d1 * 10 + digitVal d2
      if validYmdHms y m d 0 0 0 then some (encTs y m d 0 0 0) else none
    else none
  | [y1, y2, y3, y4, h1, m1, m2, h2, d1, d2, sep, a1, a2, c1, b1, b2, c2, e1, e2] =>
    if y1.isDigit && y2.isDigit && y3.isDigit && y4.isDigit &&
       h1 == '-' && m1.isDigit && m2.isDigit && h2 == '-' &&
       d1.isDigit && d2.isDigit &&
       (sep == 'T' || sep == ' ') &&
       a1.isDigit && a2.isDigit && c1 == ':' &&
       b1.isDigit && b2.isDigit && c2 == ':' &&
       e1.isDigit && e2.isDigit then
      let y := ((digitVal y1 * 10 + digitVal y2) * 10 + digitVal y3) * 10 + digitVal y4
      let m := digitVal m1 * 10 + digitVal m2
      let d := digitVal d1 * 10 + digitVal d2
      let hh := digitVal a1 * 10 + digitVal a2
      let mm := digitVal b1 * 10 + digitVal b2
      let ss := digitVal e1 * 10 + digitVal e2
      if validYmdHms y m d hh mm ss then some (encTs y m d hh mm ss) else none
    else none
  | _ => none

/-- String-level entry point of the date parser. -/
def jsParseDate (s : String) : Option Nat := jsParseDateL s.data

/-! ### Regex model

The two anchor patterns of the source are
  `/^(\d{4}-\d{2}-\d{2}.*?)\s+(\[(Error|Warning|Critical|ERR|WRN|CRIT|FTL|FAT)\]|ERROR|WARN|CRITICAL|FATAL)/i`
(archive segmenter) and
  `/^(\d{4}-\d{2}-\d{2}.*?)\s+(\[(Error|Warning|Critical)\]|ERROR|WARN|CRITICAL).*?/i`
(live tailer).  Both are anchored, share the shape
date - lazy gap - whitespace - severity alternative, and carry the `i`
flag, so the whole alternation is case-insensitive.  `anchorMatchWith`
returns the text of capture group 1 when the pattern matches. -/

/-- Case-insensitive literal match (the literal is stored lowercase) of
`pat` against the head of `cs`. -/
def ciStarts : List Char → List Char → Bool
  | [], _ => true
  | _ :: _, [] => false
  | p :: ps, c :: cs => c.toLower == p && ciStarts ps cs

/-- Does a severity alternative match at the head of `cs`?
`tags` are the bracketed tag literals, `toks` the unbracketed token
literals, both lowercase. -/
def severityAtWith (tags toks : List (List Char)) (cs : List Char) : Bool :=
  (match cs with
   | '[' :: cs2 =>
     tags.any (fun t => ciStarts t cs2 && (cs2.drop t.length).head? == some ']')
   | _ => false) ||
  toks.any (fun t => ciStarts t cs)

/-- Does `\s+(severity)` match at the head of `cs`?  Since no severity
alternative begins with whitespace, the `\s+` consumes exactly the
maximal whitespace run. -/
def restMatchesWith (tags toks : List (List Char)) (cs : List Char) : Bool :=
  match cs with
  | [] => false
  | c :: _ => isJsSpace c && severityAtWith tags toks (cs.dropWhile isJsSpace)

/-- Lazy scan for the shortest capture group 1: starting after the fixed
date part, try the remainder at each position, extending the lazy `.*?`
one character at a time; the dot cannot cross a line terminator. -/
def findSplitWith (tags toks : List (List Char)) : List Char → List Char → Option (List Char)
  | _, [] => none
  | consumed, c :: rest =>
    if restMatchesWith tags toks (c :: rest) then some consumed
    else if isDotStop c then none
    else findSplitWith tags toks (consumed ++ [c]) rest

/-- First ten characters have the shape `\d{4}-\d{2}-\d{2}`. -/
def dateShapedPre (cs : List Char) : Bool :=
  match cs with
  | y1 :: y2 :: y3 :: y4 :: h1 :: m1 :: m2 :: h2 :: d1 :: d2 :: _ =>
    y1.isDigit && y2.isDigit && y3.isDigit && y4.isDigit &&
    h1 == '-' && m1.isDigit && m2.isDigit && h2 == '-' &&
    d1.isDigit && d2.isDigit
  | _ => false

/-- `line.match(pattern)` for the anchored date+severity patterns:
`some g` with `g` the text of capture group 1, or `none` when the line
does not match. -/
def anchorMatchWith (tags toks : List (List Char)) (line : String) : Option String :=
  let cs := line.data
  if dateShapedPre cs then
    (findSplitWith tags toks (cs.take 10) (cs.drop 10)).map (fun g => ⟨g⟩)
  else none

/-- The archive segmenter's anchor pattern (logExtractor `logPattern`). -/
def logAnchorMatch (line : String) : Option String :=
  anchorMatchWith
    [['e','r','r','o','r'], ['w','a','r','n','i','n','g'], ['c','r','i','t','i','c','a','l'],
     ['e','r','r'], ['w','r','n'], ['c','r','i','t'], ['f','t','l'], ['f','a','t']]
    [['e','r','r','o','r'], ['w','a','r','n'], ['c','r','i','t','i','c','a','l'],
     ['f','a','t','a','l']]
    line

/-- The live tailer's anchor pattern (`processNewContent` `logPattern`). -/
def tailAnchorMatch (line : String) : Option String :=
  anchorMatchWith
    [['e','r','r','o','r'], ['w','a','r','n','i','n','g'], ['c','r','i','t','i','c','a','l']]
    [['e','r','r','o','r'], ['w','a','r','n'], ['c','r','i','t','i','c','a','l']]
    line

/-- The analyzer's unanchored severity test
`/\[(Error|Warning|Critical|ERR|WRN|CRIT|FTL|FAT)\]|ERROR|WARN|CRITICAL|FATAL/i.test(line)`:
a match may begin at any position of the line. -/
def lineHasSeverity (line : String) : Bool :=
  line.data.tails.any
    (severityAtWith
      [['e','r','r','o','r'], ['w','a','r','n','i','n','g'], ['c','r','i','t','i','c','a','l'],
       ['e','r','r'], ['w','r','n'], ['c','r','i','t'], ['f','t','l'], ['f','a','t']]
      [['e','r','r','o','r'], ['w','a','r','n'], ['c','r','i','t','i','c','a','l'],
       ['f','a','t','a','l']])

/-! ### Path model (Node `path.posix`) -/

/-- Models `path.posix.dirname`: the largest slash index `e ≥ 1` followed by
some non-slash character delimits the directory part; with no such index the
result is `.` (or `/` for absolute paths). -/
def dirname (p : String) : String :=
  let l := p.data
  let idxs := ((l.enum).filter
    (fun ci => 1 ≤ ci.1 && ci.2 == '/' && (l.drop (ci.1 + 1)).any (fun c2 => c2 != '/'))).map
      (fun ci => ci.1)
  match idxs.getLast? with
  | none => if l.head? == some '/' then "/" else "."
  | some e =>
    if l.head? == some '/' && e == 1 then "//" else ⟨l.take e⟩

/-- Last index of `c` in `l`, if any. -/
def lastIdxOf (c : Char) (l : List Char) : Option Nat :=
  ((l.enum).filter (fun ci => ci.2 == c)).getLast?.map (fun ci => ci.1)

/-- Models `path.posix.extname`: the suffix of the basename from its last
dot, empty when the dot is absent, leads the basename, or the basename is
`..`. -/
def extname (p : String) : String :=
  let b := (splitCh '/' p.data).getLast?.getD []
  match lastIdxOf '.' b with
  | none => ""
  | some 0 => ""
  | some i => if b == ['.', '.'] then "" else ⟨b.drop i⟩

/-- Segment resolution of `path.posix.normalize`: drop empty and `.`
segments; `..` pops a previous real segment, and survives at the head of a
relative path. -/
def normSegs (allowAboveRoot : Bool) : List String → List String → List String
  | stack, [] => stack.reverse
  | stack, s :: rest =>
    if s == "" || s == "." then normSegs allowAboveRoot stack rest
    else if s == ".." then
      match stack with
      | t :: stack2 =>
        if t == ".." then normSegs allowAboveRoot (".." :: t :: stack2) rest
        else normSegs allowAboveRoot stack2 rest
      | [] =>
        if allowAboveRoot then normSegs allowAboveRoot [".."] rest
        else normSegs allowAboveRoot [] rest
    else normSegs allowAboveRoot (s :: stack) rest

/-- Models `path.posix.normalize`. -/
def pathNormalize (p : String) : String :=
  if p == "" then "."
  else
    let isAbs := startsWithStr p "/"
    let trail := endsWithStr p "/"
    let segs := normSegs (!isAbs) [] (splitChStr '/' p)
    let res := String.intercalate "/" segs
    if res == "" then
      if isAbs then "/" else if trail then "./" else "."
    else
      let res := if trail then res ++ "/" else res
      if isAbs then "/" ++ res else res

/-! ### Path sanitizer and folder normalizer (logExtractor) -/

/-- Models `filePath.replace(/^\/+/, '')`. -/
def stripLeadingSlashes (p : String) : String :=
  ⟨p.data.dropWhile (fun c => c == '/')⟩

/-- `sanitizePath` of the source: `none` models the `null` rejection
sentinel. -/
def sanitizePath (filePath : String) : Option String :=
  let sanitized := stripLeadingSlashes filePath
  if containsSubStr sanitized ".." || containsSubStr sanitized "~" then none
  else
    let sanitized := pathNormalize sanitized
    if containsSubStr sanitized ".." || startsWithStr sanitized "/" then none
    else some sanitized

/-- `normalizeFolderStructure` of the source. -/
def normalizeFolderStructure (filePath : String) : String :=
  let segments := splitChStr '/' filePath
  let cleanSegments := segments.filter (fun s =>
    s != "" && s != "." && !startsWithStr s "__" && !dateShapedPre s.data)
  let noise : List String := ["logs", "log", "var", "tmp", "data", "output"]
  let afterIf : Option String :=
    if 1 < cleanSegments.length then
      let meaningfulSegments := cleanSegments.filter (fun s => !(noise.contains (lowerStr s)))
      if 1 < meaningfulSegments.length then
        some (String.intercalate "/" (meaningfulSegments.take 2))
      else if 0 < meaningfulSegments.length then
        let remainingSegments := cleanSegments.filter (fun s =>
          !(meaningfulSegments.contains s) && !(noise.contains (lowerStr s)))
        match remainingSegments, meaningfulSegments with
        | r :: _, m :: _ => some (m ++ "/" ++ r)
        | [], m :: _ => some m
        | _, [] => none
      else none
    else none
  match afterIf with
  | some r => r
  | none =>
    if 1 < cleanSegments.length then String.intercalate "/" (cleanSegments.take 2)
    else
      match cleanSegments.head? with
      | some s => if s == "" then "root" else s
      | none => "root"

/-! ### Record segmenter (logExtractor `processLogContent`) -/

/-- One reconstructed log record (`LogEntry` of the source; `date` in the
timestamp model). -/
structure LogEntry where
  folder : String
  file : String
  lineNumber : Nat
  content : String
  date : Nat
deriving Repr, DecidableEq

/-- Optional start/end calendar-date strings (`YYYY-MM-DD`). -/
structure DateRange where
  startDate : Option String
  endDate : Option String
deriving Repr, DecidableEq

/-- The segmenter's `isInDateRange` closure over the parsed bounds:
reject below `startDate`, reject above `endDate`, else accept.  A bound
whose string failed to parse behaves as absent, exactly like the
always-false comparisons against an Invalid Date in the source. -/
def isInDateRange (startDate endDate : Option Nat) (date : Nat) : Bool :=
  if (match startDate with | some s => decide (date < s) | none => false) then false
  else if (match endDate with | some e => decide (e < date) | none => false) then false
  else true

/-- The `lines.forEach` loop of `processLogContent` together with the
final flush: arguments are the remaining lines, the current index, and
the mutable state (`currentError`, `errorStartLine`, `errorDate`). -/
def segment (inR : Nat → Bool) (folder file : String) :
    List String → Nat → List String → Nat → Option Nat → List LogEntry
  | [], _, currentError, errorStartLine, errorDate =>
    match errorDate with
    | some d =>
      if 0 < currentError.length then
        if inR d then
          [⟨folder, file, errorStartLine + 1,
            jsTrim (String.intercalate "\n" currentError), d⟩]
        else []
      else []
    | none => []
  | line :: rest, index, currentError, errorStartLine, errorDate =>
    match logAnchorMatch line with
    | some g =>
      let flushed : List LogEntry :=
        match errorDate with
        | some d =>
          if 0 < currentError.length then
            if inR d then
              [⟨folder, file, errorStartLine + 1,
                jsTrim (String.intercalate "\n" currentError), d⟩]
            else []
          else []
        | none => []
      let cleared := 0 < currentError.length && errorDate.isSome
      let ce := (if cleared then [] else currentError) ++ [jsTrim line]
      let ed : Option Nat :=
        match jsParseDate g with
        | some d2 => some d2
        | none => if cleared then none else errorDate
      flushed ++ segment inR folder file rest (index + 1) ce index ed
    | none =>
      if 0 < currentError.length then
        segment inR folder file rest (index + 1) (currentError ++ [jsTrim line])
          errorStartLine errorDate
      else
        segment inR folder file rest (index + 1) currentError errorStartLine errorDate

/-- `processLogContent` of the source. -/
def processLogContent (content filename : String) (dateRange : DateRange) : List LogEntry :=
  let startDate := dateRange.startDate.bind jsParseDate
  let endDate := dateRange.endDate.bind (fun s => jsParseDate (s ++ "T23:59:59"))
  let folder := normalizeFolderStructure (dirname filename)
  let lines := splitChStr '\n' content
  segment (isInDateRange startDate endDate) folder filename lines 0 [] 0 none

/-! ### Archive readers and dispatch (logExtractor) -/

/-- One archive entry: name from metadata, directory flag (a tar header
type other than `file` is modelled by `dir := true`), decoded text. -/
structure ArchiveEntry where
  name : String
  dir : Bool
  content : String
deriving Repr, DecidableEq

/-- The qualifying-file test `.log`, `.txt`, or no extension. -/
def qualifiesLog (p : String) : Bool :=
  endsWithStr p ".log" || endsWithStr p ".txt" || extname p == ""

/-- `extractFromZip`: per entry, sanitize (skip on rejection), then for
qualifying non-directory entries run the segmenter; results concatenate
in entry order. -/
def extractFromZip (entries : List ArchiveEntry) (dateRange : DateRange) : List LogEntry :=
  match entries with
  | [] => []
  | e :: rest =>
    (match sanitizePath e.name with
     | none => []
     | some sanitized =>
       if !e.dir && qualifiesLog sanitized then
         processLogContent e.content sanitized dateRange
       else []) ++ extractFromZip rest dateRange

/-- `extractFromTarGz`: same per-entry sequence over the streamed tar
entries (`header.type === 'file'` is `!e.dir`). -/
def extractFromTarGz (entries : List ArchiveEntry) (dateRange : DateRange) : List LogEntry :=
  match entries with
  | [] => []
  | e :: rest =>
    (match sanitizePath e.name with
     | none => []
     | some sanitized =>
       if !e.dir && qualifiesLog sanitized then
         processLogContent e.content sanitized dateRange
       else []) ++ extractFromTarGz rest dateRange

/-- `extractLogsFromArchive`: extension dispatch, then the matching
reader; the archive bytes are modelled by the already-decoded entry
list, which the error branch never examines. -/
def extractLogsFromArchive (entries : List ArchiveEntry) (filename : String)
    (dateRange : DateRange) : Except String (List LogEntry) :=
  let extension := lowerStr (extname filename)
  if extension == ".zip" then .ok (extractFromZip entries dateRange)
  else if endsWithStr filename ".tar.gz" || endsWithStr filename ".tgz" then
    .ok (extractFromTarGz entries dateRange)
  else .error ("Unsupported file format: " ++ extension)

/-! ### Archive analyzer (`analyzeZip` / `analyzeTarGz`), projected onto
its `estimatedLogEntries` computation. -/

/-- Per-file sampling: severity matches among the first 100 lines. -/
def sampleMatches (content : String) : Nat :=
  (((splitChStr '\n' content).take 100).filter lineHasSeverity).length

/-- One iteration of the `analyzeZip` entry loop, restricted to the
`estimatedLogEntries` accumulator: the running total (which includes the
contributions of earlier files) is incremented per matching sampled line
and then rescaled by this file's `totalLines / sampledLines` ratio
(`Math.floor` of the exact ratio). -/
def analyzeZipStep (est : Nat) (e : ArchiveEntry) : Nat :=
  match sanitizePath e.name with
  | none => est
  | some sanitized =>
    if e.dir then est
    else if qualifiesLog sanitized then
      let lines := (splitChStr '\n' e.content).take 100
      let est := est + (lines.filter lineHasSeverity).length
      let totalLines := (splitChStr '\n' e.content).length
      if 0 < lines.length then est * totalLines / lines.length else est
    else est

/-- `analyzeZip`, `estimatedLogEntries` field of the result. -/
def analyzeZipEstimate (entries : List ArchiveEntry) : Nat :=
  entries.foldl analyzeZipStep 0

/-- One iteration of the `analyzeTarGz` entry handler, restricted to the
`estimatedLogEntries` accumulator: a per-file `sampleEntries` count is
extrapolated by this file's ratio and added to the global total. -/
def analyzeTarGzStep (est : Nat) (e : ArchiveEntry) : Nat :=
  match sanitizePath e.name with
  | none => est
  | some sanitized =>
    if e.dir then est
    else if qualifiesLog sanitized then
      let lines := (splitChStr '\n' e.content).take 100
      let sampleEntries := (lines.filter lineHasSeverity).length
      let totalLines := (splitChStr '\n' e.content).length
      if 0 < lines.length then est + sampleEntries * totalLines / lines.length else est
    else est

/-- `analyzeTarGz`, `estimatedLogEntries` field of the result. -/
def analyzeTarGzEstimate (entries : List ArchiveEntry) : Nat :=
  entries.foldl analyzeTarGzStep 0

/-- A single qualifying file's independent estimate as the specification
describes it: floor(sample matches x total lines / sampled lines). -/
def specFileEstimate (e : ArchiveEntry) : Nat :=
  match sanitizePath e.name with
  | none => 0
  | some sanitized =>
    if e.dir then 0
    else if qualifiesLog sanitized then
      let lines := (splitChStr '\n' e.content).take 100
      let totalLines := (splitChStr '\n' e.content).length
      if 0 < lines.length then
        (lines.filter lineHasSeverity).length * totalLines / lines.length
      else 0
    else 0

/-- The specification's estimator: the per-file estimates summed, each
file independent of every other (stated from the spec's words, for
comparison with the code's accumulators). -/
def specEstimatedLogEntries (entries : List ArchiveEntry) : Nat :=
  (entries.map specFileEstimate).sum

/-- `analyzeArchive`: the same extension dispatch as extraction, over the
analyzer accumulators. -/
def analyzeArchive (entries : List ArchiveEntry) (filename : String) : Except String Nat :=
  let extension := lowerStr (extname filename)
  if extension == ".zip" then .ok (analyzeZipEstimate entries)
  else if endsWithStr filename ".tar.gz" || endsWithStr filename ".tgz" then
    .ok (analyzeTarGzEstimate entries)
  else .error ("Unsupported file format: " ++ extension)

/-! ### Incremental tailer (local-logs live route) -/

/-- A record emitted by the tailer (`LogEntry` with the derived `id`). -/
structure TailLogEntry where
  folder : String
  file : String
  lineNumber : Nat
  content : String
  date : Nat
  id : String
deriving Repr, DecidableEq

/-- The `lines.forEach` loop of `processNewContent` with its final
flush; `startLine` is the line-number offset of the suffix being
segmented. -/
def tailSegment (folder file : String) (startLine : Nat) :
    List String → Nat → List String → Nat → Option Nat → List TailLogEntry
  | [], _, currentError, errorStartLine, errorDate =>
    match errorDate with
    | some d =>
      if 0 < currentError.length then
        [⟨folder, file, errorStartLine + 1,
          jsTrim (String.intercalate "\n" currentError), d,
          folder ++ "-" ++ file ++ "-" ++ natToStr errorStartLine ++ "-" ++ natToStr d⟩]
      else []
    | none => []
  | line :: rest, index, currentError, errorStartLine, errorDate =>
    match tailAnchorMatch line with
    | some g =>
      let flushed : List TailLogEntry :=
        match errorDate with
        | some d =>
          if 0 < currentError.length then
            [⟨folder, file, errorStartLine + 1,
              jsTrim (String.intercalate "\n" currentError), d,
              folder ++ "-" ++ file ++ "-" ++ natToStr errorStartLine ++ "-" ++ natToStr d⟩]
          else []
        | none => []
      let cleared := 0 < currentError.length && errorDate.isSome
      let ce := (if cleared then [] else currentError) ++ [jsTrim line]
      let ed : Option Nat :=
        match jsParseDate g with
        | some d2 => some d2
        | none => if cleared then none else errorDate
      flushed ++ tailSegment folder file startLine rest (index + 1) ce (startLine + index) ed
    | none =>
      if 0 < currentError.length then
        tailSegment folder file startLine rest (index + 1) (currentError ++ [jsTrim line])
          errorStartLine errorDate
      else
        tailSegment folder file startLine rest (index + 1) currentError errorStartLine errorDate

/-- `processNewContent` of the live route. -/
def processNewContent (content folder filename : String) (startLine : Nat) :
    List TailLogEntry :=
  tailSegment folder filename startLine (splitChStr '\n' content) 0 [] startLine none

/-- A file as seen by one poll tick: stat metadata plus the text a read
would return. -/
structure WatchFile where
  path : String
  folder : String
  relativePath : String
  size : Nat
  content : String
deriving Repr, DecidableEq

/-- The per-session watermark maps (`fileSizeMap`, `fileLineMap`);
`Map.set` is modelled by a shadowing cons, `Map.get` by the first
association found. -/
structure TailState where
  sizeMap : List (String × Nat)
  lineMap : List (String × Nat)
deriving Repr, DecidableEq

/-- `Map.set`. -/
def mapSet (m : List (String × Nat)) (k : String) (v : Nat) : List (String × Nat) :=
  (k, v) :: m

/-- The body of the poll loop for one file: grown files are read and
their suffix segmented, unknown files are recorded without emission,
anything else is untouched (`fileSizeMap.get(p) || 0` is the `getD 0`). -/
def pollFile (st : TailState) (f : WatchFile) : TailState × List TailLogEntry :=
  let previousSize := (st.sizeMap.lookup f.path).getD 0
  let previousLineCount := (st.lineMap.lookup f.path).getD 0
  if previousSize < f.size then
    let lines := splitChStr '\n' f.content
    let newLines := lines.drop previousLineCount
    if 0 < newLines.length then
      let newContent := String.intercalate "\n" newLines
      let newLogs := processNewContent newContent f.folder f.relativePath previousLineCount
      ({ sizeMap := mapSet st.sizeMap f.path f.size,
         lineMap := mapSet st.lineMap f.path lines.length }, newLogs)
    else
      ({ st with sizeMap := mapSet st.sizeMap f.path f.size }, [])
  else if (st.sizeMap.lookup f.path).isSome then
    (st, [])
  else
    ({ sizeMap := mapSet st.sizeMap f.path f.size,
       lineMap := mapSet st.lineMap f.path (splitChStr '\n' f.content).length }, [])

/-- One poll tick: every currently enumerated file in order, emissions
concatenated in file order as they are enqueued on the stream. -/
def pollStep (st : TailState) : List WatchFile → TailState × List TailLogEntry
  | [] => (st, [])
  | f :: fs =>
    let r1 := pollFile st f
    let r2 := pollStep r1.1 fs
    (r2.1, r1.2 ++ r2.2)

/-! ### Constructors for concrete test inputs -/

/-- Join lines with a newline character (used to build concrete file
contents whose line structure is known by construction). -/
def joinNl : List (List Char) → List Char
  | [] => []
  | [l] => l
  | l :: l2 :: ls => l ++ '\n' :: joinNl (l2 :: ls)

/-- The canonical `YYYY-MM-DD` rendering of a calendar date. -/
def mkDateStr (y m d : Nat) : String :=
  ⟨[Nat.digitChar (y / 1000 % 10), Nat.digitChar (y / 100 % 10),
    Nat.digitChar (y / 10 % 10), Nat.digitChar (y % 10), '-',
    Nat.digitChar (m / 10 % 10), Nat.digitChar (m % 10), '-',
    Nat.digitChar (d / 10 % 10), Nat.digitChar (d % 10)]⟩

/-! ### Helper lemmas about line splitting -/

theorem splitCh_noSep (sep : Char) (l : List Char) (h : sep ∉ l) :
    splitCh sep l = [l] := by
  induction l with
  | nil => rfl
  | cons c cs ih =>
    have hc : (c == sep) = false := by
      simp only [beq_eq_false_iff_ne, ne_eq]
      intro heq; exact h (heq ▸ List.mem_cons_self c cs)
    have hcs : sep ∉ cs := fun hm => h (List.mem_cons_of_mem c hm)
    simp [splitCh, ih hcs, hc]

theorem splitCh_ne_nil (sep : Char) (l : List Char) : splitCh sep l ≠ [] := by
  cases l with
  | nil => simp [splitCh]
  | cons c cs =>
    simp only [splitCh]
    rcases h : splitCh sep cs with _ | ⟨s, ss⟩
    · simp
    · by_cases hc : (c == sep) = true <;> simp [hc]

theorem splitCh_append_cons (sep : Char) (l rest : List Char) (h : sep ∉ l) :
    splitCh sep (l ++ sep :: rest) = l :: splitCh sep rest := by
  induction l with
  | nil =>
    simp only [List.nil_append, splitCh]
    rcases hr : splitCh sep rest with _ | ⟨s, ss⟩
    · exact absurd hr (splitCh_ne_nil sep rest)
    · simp
  | cons c cs ih =>
    have hc : (c == sep) = false := by
      simp only [beq_eq_false_iff_ne, ne_eq]
      intro heq; exact h (heq ▸ List.mem_cons_self c cs)
    have hcs : sep ∉ cs := fun hm => h (List.mem_cons_of_mem c hm)
    simp only [List.cons_append, splitCh, List.append_eq]
    rw [ih hcs]
    simp [hc]

theorem splitCh_joinNl (ls : List (List Char)) (hne : ls ≠ [])
    (h : ∀ l ∈ ls, '\n' ∉ l) : splitCh '\n' (joinNl ls) = ls := by
  induction ls with
  | nil => exact absurd rfl hne
  | cons l ls ih =>
    cases ls with
    | nil =>
      simp only [joinNl]
      exact splitCh_noSep '\n' l (h l (List.mem_cons_self l []))
    | cons l2 ls2 =>
      have hstep : joinNl (l :: l2 :: ls2) = l ++ '\n' :: joinNl (l2 :: ls2) := rfl
      rw [hstep, splitCh_append_cons '\n' l _ (h l (List.mem_cons_self l _)),
        ih (by simp) (fun x hx => h x (List.mem_cons_of_mem l hx))]

/-! ### C3 failing input and analyzer-step lemmas -/

/-- First qualifying entry of the C3 failing archive: two lines, one
severity match, ratio 1. -/
def c3SmallEntry : ArchiveEntry := ⟨"a.log", false, "x [Error] a\ny"⟩

/-- Second qualifying entry: 200 identical matching lines, so the sample
is the first 100 lines and the extrapolation ratio is exactly 2. -/
def c3BigEntry : ArchiveEntry := ⟨"b.log", false, ⟨joinNl (List.replicate 200 "[ERR]x".data)⟩⟩

theorem c3Big_lines : splitChStr '\n' c3BigEntry.content = List.replicate 200 "[ERR]x" := by
  show (splitCh '\n' (joinNl (List.replicate 200 "[ERR]x".data))).map _ = _
  rw [splitCh_joinNl _ (by simp)
    (fun l hl => by rw [List.eq_of_mem_replicate hl]; decide)]
  rw [List.map_replicate]

theorem c3Big_filter :
    (List.replicate 100 "[ERR]x").filter lineHasSeverity = List.replicate 100 "[ERR]x" :=
  List.filter_eq_self.mpr (fun a ha => by rw [List.eq_of_mem_replicate ha]; decide)

theorem analyzeZipStep_of (est : Nat) (e : ArchiveEntry) (sp : String) (L : List String)
    (hsan : sanitizePath e.name = some sp) (hdir : e.dir = false)
    (hq : qualifiesLog sp = true) (hlines : splitChStr '\n' e.content = L) :
    analyzeZipStep est e =
      (if 0 < (L.take 100).length then
        (est + ((L.take 100).filter lineHasSeverity).length) * L.length / (L.take 100).length
       else est + ((L.take 100).filter lineHasSeverity).length) := by
  unfold analyzeZipStep
  rw [hsan, hdir, hlines]
  simp [hq]

theorem analyzeZipStep_big (est : Nat) : analyzeZipStep est c3BigEntry = (est + 100) * 2 := by
  rw [analyzeZipStep_of est c3BigEntry "b.log" (List.replicate 200 "[ERR]x")
    (by decide) rfl (by decide) c3Big_lines]
  rw [List.take_replicate, (by decide : (100 ⊓ 200 : Nat) = 100), c3Big_filter,
    List.length_replicate, List.length_replicate,
    if_pos (by norm_num : (0:Nat) < 100)]
  omega

theorem analyzeTarGzStep_of (est : Nat) (e : ArchiveEntry) (sp : String) (L : List String)
    (hsan : sanitizePath e.name = some sp) (hdir : e.dir = false)
    (hq : qualifiesLog sp = true) (hlines : splitChStr '\n' e.content = L) :
    analyzeTarGzStep est e =
      (if 0 < (L.take 100).length then
        est + ((L.take 100).filter lineHasSeverity).length * L.length / (L.take 100).length
       else est) := by
  unfold analyzeTarGzStep
  rw [hsan, hdir, hlines]
  simp [hq]

theorem specFileEstimate_of (e : ArchiveEntry) (sp : String) (L : List String)
    (hsan : sanitizePath e.name = some sp) (hdir : e.dir = false)
    (hq : qualifiesLog sp = true) (hlines : splitChStr '\n' e.content = L) :
    specFileEstimate e =
      (if 0 < (L.take 100).length then
        ((L.take 100).filter lineHasSeverity).length * L.length / (L.take 100).length
       else 0) := by
  unfold specFileEstimate
  rw [hsan, hdir, hlines]
  simp [hq]

theorem analyzeTarGzStep_big (est : Nat) : analyzeTarGzStep est c3BigEntry = est + 200 := by
  rw [analyzeTarGzStep_of est c3BigEntry "b.log" (List.replicate 200 "[ERR]x")
    (by decide) rfl (by decide) c3Big_lines]
  rw [List.take_replicate, (by decide : (100 ⊓ 200 : Nat) = 100), c3Big_filter,
    List.length_replicate, List.length_replicate,
    if_pos (by norm_num : (0:Nat) < 100)]

theorem specFileEstimate_big : specFileEstimate c3BigEntry = 200 := by
  rw [specFileEstimate_of c3BigEntry "b.log" (List.replicate 200 "[ERR]x")
    (by decide) rfl (by decide) c3Big_lines]
  rw [List.take_replicate, (by decide : (100 ⊓ 200 : Nat) = 100), c3Big_filter,
    List.length_replicate, List.length_replicate,
    if_pos (by norm_num : (0:Nat) < 100)]

/-- Decidable equality for `Except`, for evaluating dispatch results. -/
instance {e a : Type} [DecidableEq e] [DecidableEq a] : DecidableEq (Except e a) := fun x y =>
  match x, y with
  | .error e1, .error e2 =>
    if h : e1 = e2 then isTrue (by rw [h]) else isFalse (fun hc => h (by injection hc))
  | .error _, .ok _ => isFalse (fun hc => Except.noConfusion hc)
  | .ok _, .error _ => isFalse (fun hc => Except.noConfusion hc)
  | .ok a1, .ok a2 =>
    if h : a1 = a2 then isTrue (by rw [h]) else isFalse (fun hc => h (by injection hc))

/-! ### Claim theorems -/

/-- The concrete four-line file of the C1 scenario. -/
def c1Content : String :=
  "2024-01-15 10:00:00 [Error] disk full\nstack trace line 1\n2024-01-15 10:05:00 INFO ok\n2024-01-15 10:06:00 WARN queue backing up"

set_option maxRecDepth 10000 in
/-- C1 (counterexample): contrary to the claim that the INFO line "appears
in no emitted record's content", segmenting the C1 file with no date range
emits a record whose content contains the INFO line verbatim (the line-1
record's buffer is still open at line 3, so the INFO line is appended to it
as a continuation line). -/
theorem c1_info_line_in_first_record :
    (processLogContent c1Content "svc1/app-2024-01-15.log" ⟨none, none⟩).any
      (fun r => containsSubStr r.content "2024-01-15 10:05:00 INFO ok") = true := by
  decide

set_option maxRecDepth 10000 in
/-- C1 (amended): with no date range, the segmenter returns exactly two
records for the C1 file — one anchored at line 1 with folder `svc1` whose
content carries the stack-trace line and the INFO line as continuation
lines, and one anchored at line 4 for the WARN line; the INFO line starts
no record of its own. -/
theorem c1_segmenter_two_records :
    processLogContent c1Content "svc1/app-2024-01-15.log" ⟨none, none⟩ =
      [⟨"svc1", "svc1/app-2024-01-15.log", 1,
        "2024-01-15 10:00:00 [Error] disk full\nstack trace line 1\n2024-01-15 10:05:00 INFO ok",
        encTs 2024 1 15 10 0 0⟩,
       ⟨"svc1", "svc1/app-2024-01-15.log", 4,
        "2024-01-15 10:06:00 WARN queue backing up",
        encTs 2024 1 15 10 6 0⟩] := by
  decide

set_option maxRecDepth 10000 in
/-- The file of the C2 failing input: first observed during a poll with
non-empty content and no stored watermark. -/
def c2File : WatchFile :=
  ⟨"/logs/svc/a.log", "svc", "a.log", 29, "2024-01-15 10:00:00 [Error] x"⟩

/-- C2 (code bug): a file first observed in a poll cycle with no stored
watermark and non-empty content falls into the growth branch (the missing
watermark reads as size 0), so its entire pre-existing content is emitted —
here a record carrying the file's single pre-existing line — contradicting
the claim that the first sighting emits zero records; the `New file
detected` branch that would record the watermark silently is unreachable
for non-empty files. -/
theorem c2_first_sighting_emits_preexisting_content :
    ((pollFile ⟨[], []⟩ c2File).2.map (fun r => r.content) =
      ["2024-01-15 10:00:00 [Error] x"]) ∧
    (pollFile ⟨[], []⟩ c2File).2 ≠ [] := by
  decide

set_option maxRecDepth 10000 in
/-- C3 (code bug): on a ZIP archive with two qualifying files — one with
1 sampled match and ratio 1, one with 100 sampled matches and ratio 2 —
`analyzeZip` yields 202 because the running total (already containing the
first file's contribution) is rescaled by the second file's ratio, while
the per-file independent sum required by the claim (and computed by
`analyzeTarGz` on the same entries) is 201. -/
theorem c3_zip_estimate_couples_files :
    analyzeZipEstimate [c3SmallEntry, c3BigEntry] = 202 ∧
    analyzeTarGzEstimate [c3SmallEntry, c3BigEntry] = 201 ∧
    specEstimatedLogEntries [c3SmallEntry, c3BigEntry] = 201 ∧
    analyzeZipEstimate [c3SmallEntry, c3BigEntry] ≠
      specEstimatedLogEntries [c3SmallEntry, c3BigEntry] := by
  have hzs : analyzeZipStep 0 c3SmallEntry = 1 := by decide
  have hts : analyzeTarGzStep 0 c3SmallEntry = 1 := by decide
  have hss : specFileEstimate c3SmallEntry = 1 := by decide
  have h1 : analyzeZipEstimate [c3SmallEntry, c3BigEntry] = 202 := by
    rw [analyzeZipEstimate, List.foldl_cons, List.foldl_cons, List.foldl_nil,
      hzs, analyzeZipStep_big]
  have h2 : analyzeTarGzEstimate [c3SmallEntry, c3BigEntry] = 201 := by
    rw [analyzeTarGzEstimate, List.foldl_cons, List.foldl_cons, List.foldl_nil,
      hts, analyzeTarGzStep_big]
  have h3 : specEstimatedLogEntries [c3SmallEntry, c3BigEntry] = 201 := by
    rw [specEstimatedLogEntries, List.map_cons, List.map_cons, List.map_nil,
      List.sum_cons, List.sum_cons, List.sum_nil, hss, specFileEstimate_big]
    norm_num
  exact ⟨h1, h2, h3, by rw [h1, h3]; norm_num⟩

/-- C7 (counterexample): contrary to the claim that a lowercase unbracketed
token never starts a record, the anchor pattern carries the `i` flag, so
the line `2024-01-15 10:00:00 warn x` matches and the segmenter emits a
record anchored at it. -/
theorem c7_lowercase_token_starts_record :
    processLogContent "2024-01-15 10:00:00 warn x" "a.log" ⟨none, none⟩ =
      [⟨"root", "a.log", 1, "2024-01-15 10:00:00 warn x", encTs 2024 1 15 10 0 0⟩] ∧
    logAnchorMatch "2024-01-15 10:00:00 warn x" = some "2024-01-15 10:00:00" := by
  decide

set_option maxRecDepth 10000 in
/-- C8: the folder normalizer maps both `var/serviceA/2024-01-01/log` and
`serviceA/log` to exactly `serviceA` — the date-stamped segment is dropped
and the noise segments `var` and `log` are classified out, leaving the
single meaningful segment (the normalizer is a pure Lean function, so it is
deterministic by construction). -/
theorem c8_normalize_folder_examples :
    normalizeFolderStructure "var/serviceA/2024-01-01/log" = "serviceA" ∧
    normalizeFolderStructure "serviceA/log" = "serviceA" := by
  decide

set_option maxRecDepth 10000 in
/-- C9 (counterexample): contrary to the claim that the extension
comparison is case-insensitive for all three suffixes, the filename
`a.TGZ` — which ends with `.tgz` when compared case-insensitively — is
rejected by both `extractLogsFromArchive` and `analyzeArchive` (only the
`.zip` comparison goes through the lowercased extname; `.tar.gz`/`.tgz`
use case-sensitive `endsWith`). -/
theorem c9_uppercase_tgz_rejected :
    extractLogsFromArchive [] "a.TGZ" ⟨none, none⟩ =
      Except.error "Unsupported file format: .tgz" ∧
    analyzeArchive [] "a.TGZ" = Except.error "Unsupported file format: .tgz" ∧
    endsWithStr (lowerStr "a.TGZ") ".tgz" = true := by
  decide



/-- Dropping a prefix of characters that cannot begin the pattern
preserves substring containment. -/
theorem infix_dropWhile_of_head (p : Char → Bool) (pat l : List Char) (c0 : Char)
    (hhead : pat.head? = some c0) (hp : p c0 = false) (h : pat <:+: l) :
    pat <:+: l.dropWhile p := by
  induction l with
  | nil =>
    have : pat = [] := by simpa using h
    simp [this]
  | cons a l ih =>
    by_cases hpa : p a = true
    · rw [List.dropWhile_cons, if_pos hpa]
      rcases List.infix_cons_iff.mp h with hpre | hinf
      · exfalso
        cases pat with
        | nil => simp at hhead
        | cons pc pcs =>
          have hc : pc = c0 := by simpa using hhead
          have : pc = a := (List.cons_prefix_cons.mp hpre).1
          rw [hc] at this
          rw [← this] at hpa
          rw [hpa] at hp
          exact Bool.true_eq_false.mp hp
      · exact ih hinf
    · rw [List.dropWhile_cons, if_neg hpa]
      exact h

/-- C4: a path containing `..` or `~` anywhere is rejected by the
sanitizer, and both archive readers drop every entry whose path the
sanitizer rejects: the extraction result is unchanged when rejected
entries are removed from the archive, so no record, folder name or path
is ever derived from them. -/
theorem c4_sanitizer_rejects_and_readers_skip :
    (∀ p : String, (containsSubStr p ".." = true ∨ containsSubStr p "~" = true) →
      sanitizePath p = none)
    ∧ (∀ (entries : List ArchiveEntry) (dr : DateRange),
        extractFromZip entries dr =
          extractFromZip (entries.filter (fun e => (sanitizePath e.name).isSome)) dr)
    ∧ (∀ (entries : List ArchiveEntry) (dr : DateRange),
        extractFromTarGz entries dr =
          extractFromTarGz (entries.filter (fun e => (sanitizePath e.name).isSome)) dr) := by
  refine ⟨?_, ?_, ?_⟩
  · intro p hp
    have hstrip : ∀ pat : List Char, pat.head? ≠ some '/' → pat ≠ [] →
        pat <:+: p.data → pat <:+: (stripLeadingSlashes p).data := by
      intro pat hh hne hinf
      cases hpat : pat.head? with
      | none => rw [List.head?_eq_none_iff] at hpat; exact absurd hpat hne
      | some c0 =>
        apply infix_dropWhile_of_head _ _ _ c0 hpat _ hinf
        have : c0 ≠ '/' := fun hc => hh (hc ▸ hpat)
        simpa [beq_eq_false_iff_ne] using this
    rcases hp with hp | hp
    · have hinf : (String.data "..") <:+: p.data := of_decide_eq_true hp
      have h2 : (String.data "..") <:+: (stripLeadingSlashes p).data :=
        hstrip _ (by decide) (by decide) hinf
      have hcond : (containsSubStr (stripLeadingSlashes p) ".." ||
          containsSubStr (stripLeadingSlashes p) "~") = true := by
        rw [Bool.or_eq_true]
        exact Or.inl (by simpa [containsSubStr] using h2)
      unfold sanitizePath
      rw [if_pos hcond]
    · have hinf : (String.data "~") <:+: p.data := of_decide_eq_true hp
      have h2 : (String.data "~") <:+: (stripLeadingSlashes p).data :=
        hstrip _ (by decide) (by decide) hinf
      have hcond : (containsSubStr (stripLeadingSlashes p) ".." ||
          containsSubStr (stripLeadingSlashes p) "~") = true := by
        rw [Bool.or_eq_true]
        exact Or.inr (by simpa [containsSubStr] using h2)
      unfold sanitizePath
      rw [if_pos hcond]
  · intro entries dr
    induction entries with
    | nil => rfl
    | cons e rest ih =>
      rcases hs : sanitizePath e.name with _ | sp
      · have hf : List.filter (fun e => (sanitizePath e.name).isSome) (e :: rest) =
            List.filter (fun e => (sanitizePath e.name).isSome) rest := by
          simp [List.filter_cons, hs]
        rw [hf]
        simp only [extractFromZip, hs]
        rw [ih]
        simp
      · have hf : List.filter (fun e => (sanitizePath e.name).isSome) (e :: rest) =
            e :: List.filter (fun e => (sanitizePath e.name).isSome) rest := by
          simp [List.filter_cons, hs]
        rw [hf]
        simp only [extractFromZip, hs]
        rw [ih]
  · intro entries dr
    induction entries with
    | nil => rfl
    | cons e rest ih =>
      rcases hs : sanitizePath e.name with _ | sp
      · have hf : List.filter (fun e => (sanitizePath e.name).isSome) (e :: rest) =
            List.filter (fun e => (sanitizePath e.name).isSome) rest := by
          simp [List.filter_cons, hs]
        rw [hf]
        simp only [extractFromTarGz, hs]
        rw [ih]
        simp
      · have hf : List.filter (fun e => (sanitizePath e.name).isSome) (e :: rest) =
            e :: List.filter (fun e => (sanitizePath e.name).isSome) rest := by
          simp [List.filter_cons, hs]
        rw [hf]
        simp only [extractFromTarGz, hs]
        rw [ih]

set_option maxRecDepth 10000 in
/-- C4 witness: the sanitizer theorem applied at the traversal path of
the spec scenario, and the zip reader dropping that entry. -/
theorem c4_witness :
    (containsSubStr "../../etc/passwd" ".." = true ∨
      containsSubStr "../../etc/passwd" "~" = true)
    ∧ sanitizePath "../../etc/passwd" = none
    ∧ extractFromZip [⟨"../../etc/passwd", false, "2024-01-15 10:00:00 [Error] x"⟩]
        ⟨none, none⟩ =
      extractFromZip [] ⟨none, none⟩ :=
  ⟨Or.inl (by decide),
   c4_sanitizer_rejects_and_readers_skip.1 "../../etc/passwd" (Or.inl (by decide)),
   by
    have h := c4_sanitizer_rejects_and_readers_skip.2.1
      [⟨"../../etc/passwd", false, "2024-01-15 10:00:00 [Error] x"⟩] ⟨none, none⟩
    rw [h]
    have : (sanitizePath "../../etc/passwd").isSome = false := by decide
    simp [List.filter, this]⟩




/-- A watched file that has not grown past its stored watermark is a
strict no-op for the poll body. -/
theorem pollFile_noop (st : TailState) (f : WatchFile) (s : Nat)
    (hs : st.sizeMap.lookup f.path = some s) (hle : f.size ≤ s) :
    pollFile st f = (st, []) := by
  simp only [pollFile, hs, Option.getD_some, Option.isSome_some]
  rw [if_neg (by omega : ¬ s < f.size)]
  simp

/-- The poll body for one file touches no other path's watermarks. -/
theorem pollFile_lookup_frame (st : TailState) (g : WatchFile) (p : String)
    (hp : p ≠ g.path) :
    (pollFile st g).1.sizeMap.lookup p = st.sizeMap.lookup p ∧
    (pollFile st g).1.lineMap.lookup p = st.lineMap.lookup p := by
  have hb : (p == g.path) = false := by simpa [beq_eq_false_iff_ne] using hp
  simp only [pollFile, mapSet]
  split_ifs <;> simp [List.lookup_cons, hb]

/-- A whole tick touches no watermark of a path it does not enumerate. -/
theorem pollStep_frame (st : TailState) (files : List WatchFile) (p : String)
    (hp : ∀ g ∈ files, p ≠ g.path) :
    (pollStep st files).1.sizeMap.lookup p = st.sizeMap.lookup p ∧
    (pollStep st files).1.lineMap.lookup p = st.lineMap.lookup p := by
  induction files generalizing st with
  | nil => simp [pollStep]
  | cons g fs ih =>
    simp only [pollStep]
    have h1 := pollFile_lookup_frame st g p (hp g (List.mem_cons_self g fs))
    have h2 := ih (pollFile st g).1 (fun x hx => hp x (List.mem_cons_of_mem g hx))
    exact ⟨h2.1.trans h1.1, h2.2.trans h1.2⟩

/-- C10: on a poll tick, an already-watched file whose current size does
not exceed its stored size watermark contributes nothing: its size
watermark still reads the stored value after the tick, its line-count
watermark is unchanged, and the tick's state and emissions are the same
as if the file had not been enumerated at all (so no records are emitted
for it, and content appended after a truncation is only emitted once the
size exceeds the old watermark). -/
theorem c10_unchanged_file_is_noop (st : TailState) (files : List WatchFile)
    (f : WatchFile) (s : Nat) (hmem : f ∈ files)
    (hnodup : (files.map (fun g => g.path)).Nodup)
    (hs : st.sizeMap.lookup f.path = some s) (hle : f.size ≤ s) :
    (pollStep st files).1.sizeMap.lookup f.path = some s ∧
    (pollStep st files).1.lineMap.lookup f.path = st.lineMap.lookup f.path ∧
    pollStep st files = pollStep st (files.erase f) := by
  induction files generalizing st with
  | nil => cases hmem
  | cons g fs ih =>
    rw [List.map_cons] at hnodup
    have hnd := List.nodup_cons.mp hnodup
    rcases List.mem_cons.mp hmem with rfl | hmem2
    · have hnoop : pollFile st f = (st, []) := pollFile_noop st f s hs hle
      have hpaths : ∀ x ∈ fs, f.path ≠ x.path := by
        intro x hx heq
        exact hnd.1 (heq ▸ List.mem_map_of_mem (fun w => w.path) hx)
      have hfr := pollStep_frame st fs f.path hpaths
      have hred : pollStep st (f :: fs) = pollStep st fs := by
        simp [pollStep, hnoop]
      refine ⟨?_, ?_, ?_⟩
      · rw [hred, hfr.1]; exact hs
      · rw [hred, hfr.2]
      · rw [hred, List.erase_cons_head]
    · have hfpath : f.path ∈ fs.map (fun w => w.path) :=
        List.mem_map_of_mem (fun w => w.path) hmem2
      have hgf : f.path ≠ g.path := fun heq => hnd.1 (heq ▸ hfpath)
      have hfr := pollFile_lookup_frame st g f.path hgf
      have hs2 : (pollFile st g).1.sizeMap.lookup f.path = some s := by
        rw [hfr.1]; exact hs
      have ih2 := ih (pollFile st g).1 hmem2 hnd.2 hs2
      have hne : (g == f) ≠ true := fun hb =>
        hgf (congrArg (fun w => w.path) (beq_iff_eq.mp hb)).symm
      refine ⟨?_, ?_, ?_⟩
      · simpa only [pollStep] using ih2.1
      · calc (pollStep st (g :: fs)).1.lineMap.lookup f.path
            = (pollStep (pollFile st g).1 fs).1.lineMap.lookup f.path := by
              simp only [pollStep]
          _ = (pollFile st g).1.lineMap.lookup f.path := ih2.2.1
          _ = st.lineMap.lookup f.path := hfr.2
      · rw [List.erase_cons_tail hne]
        simp only [pollStep]
        rw [ih2.2.2]

/-- C10 witness: the theorem applied to a concrete single-file tick whose
file has not grown past its stored watermark. -/
theorem c10_witness :
    (⟨"/logs/svc/a.log", "svc", "a.log", 20,
      "2024-01-15 10:00:00 [Error] x"⟩ : WatchFile) ∈
      [(⟨"/logs/svc/a.log", "svc", "a.log", 20,
        "2024-01-15 10:00:00 [Error] x"⟩ : WatchFile)] ∧
    (pollStep ⟨[("/logs/svc/a.log", 29)], [("/logs/svc/a.log", 1)]⟩
        [⟨"/logs/svc/a.log", "svc", "a.log", 20,
          "2024-01-15 10:00:00 [Error] x"⟩]).1.sizeMap.lookup "/logs/svc/a.log" =
      some 29 :=
  ⟨List.mem_cons_self _ _,
   (c10_unchanged_file_is_noop
      ⟨[("/logs/svc/a.log", 29)], [("/logs/svc/a.log", 1)]⟩
      [⟨"/logs/svc/a.log", "svc", "a.log", 20, "2024-01-15 10:00:00 [Error] x"⟩]
      ⟨"/logs/svc/a.log", "svc", "a.log", 20, "2024-01-15 10:00:00 [Error] x"⟩
      29 (List.mem_cons_self _ _) (by simp) (by decide) (by decide)).1⟩




/-- Decimal digit characters round-trip through `digitVal`. -/
theorem digitChar_isDigit (k : Nat) (hk : k < 10) :
    (Nat.digitChar k).isDigit = true ∧ digitVal (Nat.digitChar k) = k := by
  interval_cases k <;> exact ⟨rfl, rfl⟩

/-- Every month has at most 31 days. -/
theorem daysInMonth_le_31 (y m : Nat) : daysInMonth y m ≤ 31 := by
  unfold daysInMonth
  split_ifs
  · cases isLeap y <;> simp
  all_goals omega

/-- The date parser on a canonical `YYYY-MM-DD` string yields midnight of
that day, and with the `T23:59:59` suffix the last second of that day. -/
theorem jsParseDate_mkDateStr (y m d : Nat) (hy : y ≤ 9999)
    (hv : validYmdHms y m d 0 0 0 = true) :
    jsParseDate (mkDateStr y m d) = some (encTs y m d 0 0 0) ∧
    jsParseDate (mkDateStr y m d ++ "T23:59:59") = some (encTs y m d 23 59 59) := by
  have hvp : 1 ≤ m ∧ m ≤ 12 ∧ 1 ≤ d ∧ d ≤ daysInMonth y m := by
    simp only [validYmdHms, Bool.and_eq_true, decide_eq_true_eq] at hv
    exact ⟨hv.1.1.1.1.1.1, hv.1.1.1.1.1.2, hv.1.1.1.1.2, hv.1.1.1.2⟩
  have hd31 : d ≤ 31 := le_trans hvp.2.2.2 (daysInMonth_le_31 y m)
  have h1 := digitChar_isDigit (y / 1000 % 10) (Nat.mod_lt _ (by norm_num))
  have h2 := digitChar_isDigit (y / 100 % 10) (Nat.mod_lt _ (by norm_num))
  have h3 := digitChar_isDigit (y / 10 % 10) (Nat.mod_lt _ (by norm_num))
  have h4 := digitChar_isDigit (y % 10) (Nat.mod_lt _ (by norm_num))
  have h5 := digitChar_isDigit (m / 10 % 10) (Nat.mod_lt _ (by norm_num))
  have h6 := digitChar_isDigit (m % 10) (Nat.mod_lt _ (by norm_num))
  have h7 := digitChar_isDigit (d / 10 % 10) (Nat.mod_lt _ (by norm_num))
  have h8 := digitChar_isDigit (d % 10) (Nat.mod_lt _ (by norm_num))
  have hyv : ((digitVal (Nat.digitChar (y / 1000 % 10)) * 10 +
      digitVal (Nat.digitChar (y / 100 % 10))) * 10 +
      digitVal (Nat.digitChar (y / 10 % 10))) * 10 +
      digitVal (Nat.digitChar (y % 10)) = y := by
    rw [h1.2, h2.2, h3.2, h4.2]; omega
  have hmv : digitVal (Nat.digitChar (m / 10 % 10)) * 10 +
      digitVal (Nat.digitChar (m % 10)) = m := by
    rw [h5.2, h6.2]; omega
  have hdv : digitVal (Nat.digitChar (d / 10 % 10)) * 10 +
      digitVal (Nat.digitChar (d % 10)) = d := by
    rw [h7.2, h8.2]; omega
  constructor
  · show jsParseDateL (mkDateStr y m d).data = _
    show jsParseDateL [Nat.digitChar (y / 1000 % 10), Nat.digitChar (y / 100 % 10),
      Nat.digitChar (y / 10 % 10), Nat.digitChar (y % 10), '-',
      Nat.digitChar (m / 10 % 10), Nat.digitChar (m % 10), '-',
      Nat.digitChar (d / 10 % 10), Nat.digitChar (d % 10)] = _
    simp only [jsParseDateL, h1.1, h2.1, h3.1, h4.1, h5.1, h6.1, h7.1, h8.1,
      beq_self_eq_true, Bool.and_self, Bool.and_true, Bool.true_and, if_true]
    rw [hyv, hmv, hdv, hv]
    simp
  · show jsParseDateL (mkDateStr y m d ++ "T23:59:59").data = _
    rw [String.data_append]
    show jsParseDateL [Nat.digitChar (y / 1000 % 10), Nat.digitChar (y / 100 % 10),
      Nat.digitChar (y / 10 % 10), Nat.digitChar (y % 10), '-',
      Nat.digitChar (m / 10 % 10), Nat.digitChar (m % 10), '-',
      Nat.digitChar (d / 10 % 10), Nat.digitChar (d % 10),
      'T', '2', '3', ':', '5', '9', ':', '5', '9'] = _
    simp only [jsParseDateL, h1.1, h2.1, h3.1, h4.1, h5.1, h6.1, h7.1, h8.1,
      beq_self_eq_true, Bool.and_self, Bool.and_true, Bool.true_and, if_true]
    rw [hyv, hmv, hdv]
    have hv2 : validYmdHms y m d 23 59 59 = true := by
      simp only [validYmdHms, Bool.and_eq_true, decide_eq_true_eq]
      refine ⟨⟨⟨⟨⟨⟨hvp.1, hvp.2.1⟩, hvp.2.2.1⟩, hvp.2.2.2⟩, by norm_num⟩, by norm_num⟩, by norm_num⟩
    simp only [(show digitVal '2' * 10 + digitVal '3' = 23 from rfl),
      (show digitVal '5' * 10 + digitVal '9' = 59 from rfl)]
    rw [hv2]
    simp


/-- C5: the date-range filter parses `startDate` to midnight of that day
and `endDate` (suffixed `T23:59:59`) to the last second of its day; a
record date passes iff it is at or after any start bound and at or before
any end bound; in particular a date equal to `endDate` at midnight passes
the end test, and a date one second past `endDate` 23:59:59 is rejected. -/
theorem c5_date_range_filter (y1 m1 d1 y2 m2 d2 : Nat) (so eo : Option Nat) (t : Nat)
    (hy1 : y1 ≤ 9999) (hv1 : validYmdHms y1 m1 d1 0 0 0 = true)
    (hy2 : y2 ≤ 9999) (hv2 : validYmdHms y2 m2 d2 0 0 0 = true)
    (hso : so = none ∨ so = some (encTs y1 m1 d1 0 0 0))
    (heo : eo = none ∨ eo = some (encTs y2 m2 d2 23 59 59)) :
    (jsParseDate (mkDateStr y1 m1 d1) = some (encTs y1 m1 d1 0 0 0) ∧
     jsParseDate (mkDateStr y2 m2 d2 ++ "T23:59:59") = some (encTs y2 m2 d2 23 59 59)) ∧
    (isInDateRange so eo t = true ↔
      ((∀ s, so = some s → s ≤ t) ∧ (∀ e, eo = some e → t ≤ e))) ∧
    isInDateRange none (some (encTs y2 m2 d2 23 59 59)) (encTs y2 m2 d2 0 0 0) = true ∧
    isInDateRange so (some (encTs y2 m2 d2 23 59 59)) (encTs y2 m2 d2 23 59 59 + 1) = false := by
  refine ⟨⟨(jsParseDate_mkDateStr y1 m1 d1 hy1 hv1).1,
    (jsParseDate_mkDateStr y2 m2 d2 hy2 hv2).2⟩, ?_, ?_, ?_⟩
  · rcases hso with rfl | rfl <;> rcases heo with rfl | rfl <;>
      simp only [isInDateRange] <;> split_ifs <;> simp_all <;> omega
  · simp only [isInDateRange, encTs]
    split_ifs with h1 h2 <;> simp_all
    omega
  · rcases hso with rfl | rfl <;> simp only [isInDateRange] <;>
      split_ifs <;> simp_all

/-- C5 witness: the filter theorem at the concrete range 2024-01-10 to
2024-01-15 and a record date inside the window. -/
theorem c5_date_range_filter_witness :
    validYmdHms 2024 1 10 0 0 0 = true ∧
    validYmdHms 2024 1 15 0 0 0 = true ∧
    (isInDateRange (some (encTs 2024 1 10 0 0 0)) (some (encTs 2024 1 15 23 59 59))
        (encTs 2024 1 12 8 30 0) = true ↔
      ((∀ s, some (encTs 2024 1 10 0 0 0) = some s → s ≤ encTs 2024 1 12 8 30 0) ∧
       (∀ e, some (encTs 2024 1 15 23 59 59) = some e → encTs 2024 1 12 8 30 0 ≤ e))) ∧
    isInDateRange (some (encTs 2024 1 10 0 0 0)) (some (encTs 2024 1 15 23 59 59))
      (encTs 2024 1 15 23 59 59 + 1) = false :=
  ⟨by decide, by decide,
   (c5_date_range_filter 2024 1 10 2024 1 15
      (some (encTs 2024 1 10 0 0 0)) (some (encTs 2024 1 15 23 59 59))
      (encTs 2024 1 12 8 30 0) (by norm_num) (by decide) (by norm_num) (by decide)
      (Or.inr rfl) (Or.inr rfl)).2.1,
   (c5_date_range_filter 2024 1 10 2024 1 15
      (some (encTs 2024 1 10 0 0 0)) (some (encTs 2024 1 15 23 59 59))
      (encTs 2024 1 12 8 30 0) (by norm_num) (by decide) (by norm_num) (by decide)
      (Or.inr rfl) (Or.inr rfl)).2.2.2⟩




/-- C6: a file whose three lines are one anchor line (whose capture group
parses to a date) followed by two non-matching continuation lines segments,
with no date range, to exactly one record: its content is the three
individually-trimmed lines joined by newline and trimmed as a whole, its
line number is 1, and its date is the anchor's parsed date. -/
theorem c6_single_record_roundtrip (content filename l1 c1 c2 g : String) (t : Nat)
    (hsplit : splitChStr '\n' content = [l1, c1, c2])
    (hanchor : logAnchorMatch l1 = some g)
    (hdate : jsParseDate g = some t)
    (hc1 : logAnchorMatch c1 = none)
    (hc2 : logAnchorMatch c2 = none) :
    processLogContent content filename ⟨none, none⟩ =
      [⟨normalizeFolderStructure (dirname filename), filename, 1,
        jsTrim (String.intercalate "\n" [jsTrim l1, jsTrim c1, jsTrim c2]), t⟩] := by
  unfold processLogContent
  rw [hsplit]
  simp [segment, hanchor, hdate, hc1, hc2, isInDateRange]

set_option maxRecDepth 10000 in
/-- C6 witness: the round-trip theorem at a concrete three-line file. -/
theorem c6_single_record_roundtrip_witness :
    splitChStr '\n' "2024-02-01 08:00:00 [WRN] low disk\n  at foo\n  at bar" =
      ["2024-02-01 08:00:00 [WRN] low disk", "  at foo", "  at bar"] ∧
    processLogContent "2024-02-01 08:00:00 [WRN] low disk\n  at foo\n  at bar"
        "svc/a.log" ⟨none, none⟩ =
      [⟨normalizeFolderStructure (dirname "svc/a.log"), "svc/a.log", 1,
        jsTrim (String.intercalate "\n"
          [jsTrim "2024-02-01 08:00:00 [WRN] low disk", jsTrim "  at foo", jsTrim "  at bar"]),
        encTs 2024 2 1 8 0 0⟩] :=
  ⟨by decide,
   c6_single_record_roundtrip "2024-02-01 08:00:00 [WRN] low disk\n  at foo\n  at bar"
     "svc/a.log" "2024-02-01 08:00:00 [WRN] low disk" "  at foo" "  at bar"
     "2024-02-01 08:00:00" (encTs 2024 2 1 8 0 0)
     (by decide) (by decide) (by decide) (by decide) (by decide)⟩




/-- Codepoint value of a lowercase letter built by `Char.ofNat`. -/
theorem ofNat_toNat_valid (n : Nat) (h1 : 65 ≤ n) (h2 : n ≤ 90) :
    (Char.ofNat (n + 32)).toNat = n + 32 := by
  have hv : (n + 32).isValidChar := by left; omega
  simp [Char.ofNat, hv, Char.toNat, Char.ofNatAux, UInt32.toNat, BitVec.toNat_ofNatLt]

/-- `Char.toLower` either fixes a character or shifts an uppercase ASCII
letter down by 32. -/
theorem toLower_cases (c : Char) :
    c.toLower = c ∨ (65 ≤ c.toNat ∧ c.toNat ≤ 90 ∧ c.toLower.toNat = c.toNat + 32) := by
  unfold Char.toLower
  by_cases h : c.toNat ≥ 65 ∧ c.toNat ≤ 90
  · right
    refine ⟨h.1, h.2, ?_⟩
    rw [if_pos h]
    exact ofNat_toNat_valid c.toNat h.1 h.2
  · left; rw [if_neg h]

/-- The codepoints of the JS whitespace class. -/
theorem isJsSpace_toNat (c : Char) (h : isJsSpace c = true) :
    c.toNat = 32 ∨ c.toNat = 9 ∨ c.toNat = 10 ∨ c.toNat = 13 ∨
    c.toNat = 11 ∨ c.toNat = 12 ∨ c.toNat = 160 := by
  simp only [isJsSpace, Bool.or_eq_true, beq_iff_eq] at h
  rcases h with ((((((h | h) | h) | h) | h) | h) | h) <;> subst h <;> simp

/-- Uppercase ASCII letters are not whitespace. -/
theorem notSpace_of_upper (c : Char) (h65 : 65 ≤ c.toNat) (h90 : c.toNat ≤ 90) :
    isJsSpace c = false := by
  by_contra h
  have := isJsSpace_toNat c (by simpa using h)
  omega

/-- A character whose lowercase form is a non-space is itself a
non-space. -/
theorem notSpace_of_toLower (c x : Char) (hc : c.toLower = x) (hx : isJsSpace x = false) :
    isJsSpace c = false := by
  rcases toLower_cases c with h | ⟨h65, h90, _⟩
  · rw [show c = x from h ▸ hc]
    exact hx
  · exact notSpace_of_upper c h65 h90

/-- A capitalization variant of a lowercase literal matches it
case-insensitively. -/
theorem ciStarts_append_of_lower (w v rest : List Char)
    (hv : v.map Char.toLower = w) : ciStarts w (v ++ rest) = true := by
  induction v generalizing w with
  | nil =>
    have : w = [] := by simpa using hv.symm
    subst this
    rfl
  | cons c v2 ih =>
    cases w with
    | nil => simp at hv
    | cons x w2 =>
      have hx : c.toLower = x ∧ v2.map Char.toLower = w2 := by simpa using hv
      simp only [List.cons_append, ciStarts, hx.1, beq_self_eq_true, Bool.true_and]
      exact ih w2 hx.2

/-- Whitespace followed by a capitalization variant of a listed token
satisfies the `\\s+(severity)` remainder. -/
theorem restMatchesWith_of_token (tags toks : List (List Char)) (w v rest : List Char)
    (hwt : w ∈ toks) (hv : v.map Char.toLower = w) (hwne : w ≠ [])
    (hwhead : ∀ x, w.head? = some x → isJsSpace x = false) :
    restMatchesWith tags toks (' ' :: (v ++ rest)) = true := by
  cases v with
  | nil =>
    cases w with
    | nil => exact absurd rfl hwne
    | cons x w2 => simp at hv
  | cons c v2 =>
    cases w with
    | nil => simp at hv
    | cons x w2 =>
      have hx : c.toLower = x ∧ v2.map Char.toLower = w2 := by simpa using hv
      have hcx : isJsSpace c = false :=
        notSpace_of_toLower c x hx.1 (hwhead x rfl)
      simp only [restMatchesWith, List.cons_append]
      rw [List.dropWhile_cons, if_pos (by decide : isJsSpace ' ' = true),
        List.dropWhile_cons, if_neg (by simp [hcx])]
      have hsev : severityAtWith tags toks (c :: (v2 ++ rest)) = true := by
        unfold severityAtWith
        rw [Bool.or_eq_true]
        right
        rw [List.any_eq_true]
        exact ⟨x :: w2, hwt, by
          show ciStarts (x :: w2) ((c :: v2) ++ rest) = true
          exact ciStarts_append_of_lower (x :: w2) (c :: v2) rest hv⟩
      rw [hsev]
      decide

/-- The lazy scan succeeds whenever the remainder matches somewhere after
a gap free of line terminators. -/
theorem findSplitWith_isSome (tags toks : List (List Char)) (mid tail consumed : List Char)
    (hmid : ∀ c ∈ mid, isDotStop c = false)
    (htail : restMatchesWith tags toks tail = true) :
    (findSplitWith tags toks consumed (mid ++ tail)).isSome = true := by
  induction mid generalizing consumed with
  | nil =>
    cases tail with
    | nil => simp [restMatchesWith] at htail
    | cons c rest =>
      simp only [List.nil_append, findSplitWith]
      rw [if_pos htail]
      rfl
  | cons c mid2 ih =>
    by_cases hr : restMatchesWith tags toks (c :: (mid2 ++ tail)) = true
    · simp only [List.cons_append, findSplitWith, List.append_eq]
      rw [if_pos hr]
      rfl
    · simp only [List.cons_append, findSplitWith, List.append_eq]
      rw [if_neg hr, if_neg (by simp [hmid c (List.mem_cons_self c mid2)])]
      exact ih (consumed ++ [c]) (fun x hx => hmid x (List.mem_cons_of_mem c hx))

/-- Packing the capture group into a string preserves matching. -/
theorem isSome_map_data (o : Option (List Char)) :
    (Option.map (fun g => ({ data := g } : String)) o).isSome = o.isSome := by
  cases o <;> rfl

/-- A date-shaped prefix stays date-shaped under appending, with take and
drop splitting as expected. -/
theorem dateShapedPre_append (l l2 : List Char) (h : dateShapedPre l = true) :
    dateShapedPre (l ++ l2) = true ∧
    (l ++ l2).take 10 = l.take 10 ∧ (l ++ l2).drop 10 = l.drop 10 ++ l2 := by
  rcases l with _|⟨a1,_|⟨a2,_|⟨a3,_|⟨a4,_|⟨a5,_|⟨a6,_|⟨a7,_|⟨a8,_|⟨a9,_|⟨a10,l3⟩⟩⟩⟩⟩⟩⟩⟩⟩⟩ <;>
    simp_all [dateShapedPre]

/-- C7 (amended): the anchor alternation is case-insensitive, so a line
built from a date-shaped prefix (free of line terminators), whitespace,
and ANY capitalization of an unbracketed ERROR / WARN / CRITICAL / FATAL
token matches the archive anchor pattern and hence starts a record. -/
theorem c7_case_insensitive_anchor (pre v rest : String) (w : List Char)
    (hw : w ∈ [['e','r','r','o','r'], ['w','a','r','n'],
      ['c','r','i','t','i','c','a','l'], ['f','a','t','a','l']])
    (hpre : dateShapedPre pre.data = true)
    (hclean : ∀ c ∈ pre.data, isDotStop c = false)
    (hv : v.data.map Char.toLower = w) :
    (logAnchorMatch (pre ++ " " ++ v ++ rest)).isSome = true := by
  have hdata : (pre ++ " " ++ v ++ rest).data =
      pre.data ++ (' ' :: (v.data ++ rest.data)) := by
    rw [String.data_append, String.data_append, String.data_append]
    simp
  have hshape := dateShapedPre_append pre.data (' ' :: (v.data ++ rest.data)) hpre
  unfold logAnchorMatch anchorMatchWith
  rw [hdata, if_pos hshape.1, isSome_map_data]
  rw [hshape.2.2]
  refine findSplitWith_isSome _ _ _ _ _ ?_ ?_
  · intro c hc
    exact hclean c (List.mem_of_mem_drop hc)
  · refine restMatchesWith_of_token _ _ w v.data rest.data ?_ hv ?_ ?_
    · fin_cases hw <;> decide
    · fin_cases hw <;> decide
    · fin_cases hw <;> intro x hx <;> simp_all <;> subst hx <;> decide


set_option maxRecDepth 10000 in
/-- C7 witness: the amended anchor theorem applied to the mixed-case line
`2024-01-15 10:00:00 Warn x`. -/
theorem c7_case_insensitive_anchor_witness :
    dateShapedPre "2024-01-15 10:00:00".data = true ∧
    (logAnchorMatch ("2024-01-15 10:00:00" ++ " " ++ "Warn" ++ " x")).isSome = true :=
  ⟨by decide,
   c7_case_insensitive_anchor "2024-01-15 10:00:00" "Warn" " x" ['w','a','r','n']
     (by decide) (by decide) (by decide) (by decide)⟩




/-- C9 (amended): dispatch succeeds exactly when the lowercased extname is
`.zip` or the filename ends, case-sensitively, with `.tar.gz` or `.tgz`;
otherwise both entry points fail with an error naming the lowercased
extname, and the outcome is independent of the archive's entries (the
bytes are never consulted in the rejection case). -/
theorem c9_dispatch_rejection (entries entries2 : List ArchiveEntry) (fn : String)
    (dr : DateRange) :
    ((extractLogsFromArchive entries fn dr).isOk =
      (lowerStr (extname fn) == ".zip" || endsWithStr fn ".tar.gz" || endsWithStr fn ".tgz"))
    ∧ ((analyzeArchive entries fn).isOk =
      (lowerStr (extname fn) == ".zip" || endsWithStr fn ".tar.gz" || endsWithStr fn ".tgz"))
    ∧ ((lowerStr (extname fn) == ".zip" || endsWithStr fn ".tar.gz" ||
          endsWithStr fn ".tgz") = false →
        extractLogsFromArchive entries fn dr =
          Except.error ("Unsupported file format: " ++ lowerStr (extname fn)) ∧
        analyzeArchive entries fn =
          Except.error ("Unsupported file format: " ++ lowerStr (extname fn)) ∧
        extractLogsFromArchive entries fn dr = extractLogsFromArchive entries2 fn dr ∧
        analyzeArchive entries fn = analyzeArchive entries2 fn) := by
  simp only [extractLogsFromArchive, analyzeArchive]
  by_cases h1 : (lowerStr (extname fn) == ".zip") = true
  · simp [h1, Except.isOk, Except.toBool]
  · rw [Bool.not_eq_true] at h1
    by_cases h2 : (endsWithStr fn ".tar.gz" || endsWithStr fn ".tgz") = true
    · rcases Bool.or_eq_true _ _ |>.mp h2 with h3 | h3 <;>
        simp [h1, h3, Except.isOk, Except.toBool]
    · rw [Bool.not_eq_true, Bool.or_eq_false_iff] at h2
      simp [h1, h2.1, h2.2, Except.isOk, Except.toBool]

set_option maxRecDepth 10000 in
/-- C9 witness: the dispatch theorem applied to the rejected filename
`logs.rar` with two different archives. -/
theorem c9_dispatch_rejection_witness :
    (lowerStr (extname "logs.rar") == ".zip" || endsWithStr "logs.rar" ".tar.gz" ||
      endsWithStr "logs.rar" ".tgz") = false ∧
    extractLogsFromArchive [] "logs.rar" ⟨none, none⟩ =
      Except.error ("Unsupported file format: " ++ lowerStr (extname "logs.rar")) :=
  ⟨by decide,
   ((c9_dispatch_rejection [] [⟨"a.log", false, ""⟩] "logs.rar" ⟨none, none⟩).2.2
     (by decide)).1⟩


end Yule
